import Mathlib

/-
Shallow embedding of the argument-parsing core of the `cli-rs` repository
(`src/args.rs`).  Rust `Vec` becomes `List`, `HashMap<String, usize>` becomes
an association list with insert-or-replace semantics, `Result<_, ()>` and
panics become `Option` (with `none` for the failure/panic), and the two
regular expressions are unfolded into the deterministic character-level
matchers they denote on this pattern (the character class `[\w_-]` never
contains `=`, `/` or whitespace, so the regex engine's leftmost-first
backtracking degenerates to maximal-run scanning).
-/

namespace CliRs

/-- Character class `[\w_-]` of `SCHEMA_REGEX` (ASCII word characters plus
underscore and dash). -/
def wordChar (c : Char) : Bool :=
  c.isAlphanum || c = '_' || c = '-'

/-- Model of Rust `s.split_whitespace().collect::<String>()` in
`CliArgs::parse_schema`: every whitespace character is removed. -/
def stripWhitespace (s : String) : String :=
  ⟨s.data.filter (fun c => !c.isWhitespace)⟩

/-- Model of Rust `str::split_once(sep)` on character lists: split at the
first occurrence of `sep`, returning the text before and after it. -/
def splitOnceAux (sep : List Char) : List Char → Option (List Char × List Char)
  | [] => none
  | c :: cs =>
    if sep.isPrefixOf (c :: cs) then some ([], (c :: cs).drop sep.length)
    else
      match splitOnceAux sep cs with
      | some (a, b) => some (c :: a, b)
      | none => none

/-- Rust `str::split_once` lifted to `String`. -/
def split_once (s sep : String) : Option (String × String) :=
  (splitOnceAux sep.data s.data).map (fun p => (⟨p.1⟩, ⟨p.2⟩))

/-- Maximal run of `[\w_-]` characters at the front of the input, together
with the remaining characters (greedy `[\w_-]+` of the schema regex). -/
def takeWord : List Char → List Char × List Char
  | [] => ([], [])
  | c :: cs =>
    if wordChar c then
      let p := takeWord cs
      (c :: p.1, p.2)
    else ([], c :: cs)

/-- Named captures produced by a successful match of `SCHEMA_REGEX`
`((?P<kl>--[\w_-]+)|(?P<ks>-[\w_-]+)|(?P<kls>--[\w_-]+ / -[\w_-]+))=(?P<type>[bis])\??`
(spaces around the slash added here only to keep this comment well formed;
the pattern itself has none). -/
structure SchemaCaps where
  kl : Option (List Char)
  ks : Option (List Char)
  kls : Option (List Char)
  ty : Char
  deriving DecidableEq

/-- Alternative `(?P<kl>--[\w_-]+)` followed by `=(?P<type>[bis])`: only the
maximal word run can be followed by `=`, so greedy matching is exact. -/
def matchKl (cs : List Char) : Option SchemaCaps :=
  match cs with
  | '-' :: '-' :: rest =>
    let p := takeWord rest
    if p.1.isEmpty then none
    else
      match p.2 with
      | '=' :: t :: _ =>
        if t = 'b' || t = 'i' || t = 's' then
          some ⟨some ('-' :: '-' :: p.1), none, none, t⟩
        else none
      | _ => none
  | _ => none

/-- Alternative `(?P<ks>-[\w_-]+)` followed by `=(?P<type>[bis])`. -/
def matchKs (cs : List Char) : Option SchemaCaps :=
  match cs with
  | '-' :: rest =>
    let p := takeWord rest
    if p.1.isEmpty then none
    else
      match p.2 with
      | '=' :: t :: _ =>
        if t = 'b' || t = 'i' || t = 's' then
          some ⟨none, some ('-' :: p.1), none, t⟩
        else none
      | _ => none
  | _ => none

/-- Alternative `kls` (long name, slash, short name) followed by
`=(?P<type>[bis])`. -/
def matchKls (cs : List Char) : Option SchemaCaps :=
  match cs with
  | '-' :: '-' :: rest =>
    let p := takeWord rest
    if p.1.isEmpty then none
    else
      match p.2 with
      | '/' :: '-' :: rest2 =>
        let q := takeWord rest2
        if q.1.isEmpty then none
        else
          match q.2 with
          | '=' :: t :: _ =>
            if t = 'b' || t = 'i' || t = 's' then
              some ⟨none, none, some ('-' :: '-' :: p.1 ++ '/' :: '-' :: q.1), t⟩
            else none
          | _ => none
      | _ => none
  | _ => none

/-- One attempt of the whole pattern at the current position, alternatives in
the regex's leftmost-first order: `kl`, then `ks`, then `kls`. -/
def matchSchemaAt (cs : List Char) : Option SchemaCaps :=
  match matchKl cs with
  | some caps => some caps
  | none =>
    match matchKs cs with
    | some caps => some caps
    | none => matchKls cs

/-- Model of `Regex::captures`: the pattern is tried at each start position
from the left; the first position with a match wins. -/
def searchSchema : List Char → Option SchemaCaps
  | [] => none
  | c :: cs =>
    match matchSchemaAt (c :: cs) with
    | some caps => some caps
    | none => searchSchema cs

/-- Settings attached to one declared argument (`ArgSettings<T>` in the
source): the optional flag and the optional default value. -/
structure ArgSettings (T : Type) where
  optional : Bool
  default_val : Option T
  deriving DecidableEq

/-- Model of `ArgSettings::apply`: if no value was observed, push the default
when one exists; fail (`Err(())`, here `none`) when the argument is neither
optional nor defaulted.  Non-empty value lists are left untouched. -/
def ArgSettings.apply {T : Type} (s : ArgSettings T) (vals : List T) : Option (List T) :=
  if vals.isEmpty then
    if s.optional then
      match s.default_val with
      | some d => some (vals ++ [d])
      | none => some vals
    else
      match s.default_val with
      | some d => some (vals ++ [d])
      | none => none
  else some vals

/-- One declared argument (`enum Arg` in the source): the accumulated observed
values together with the settings, per declared kind. -/
inductive Arg where
  | Bool (vals : List Bool) (settings : ArgSettings Bool)
  | Int (vals : List Int) (settings : ArgSettings Int)
  | String (vals : List String) (settings : ArgSettings String)
  deriving DecidableEq

/-- Model of `Arg::apply_settings`, dispatching `ArgSettings::apply` per kind. -/
def Arg.apply_settings : Arg → Option Arg
  | .Bool vals settings => (settings.apply vals).map (fun vs => .Bool vs settings)
  | .Int vals settings => (settings.apply vals).map (fun vs => .Int vs settings)
  | .String vals settings => (settings.apply vals).map (fun vs => .String vs settings)

/-- Rust `bool::from_str`: exactly the strings `true` and `false` parse. -/
def parse_bool (s : String) : Option Bool :=
  if s = "true" then some true
  else if s = "false" then some false
  else none

/-- Digit run to number: all characters must be ASCII digits and there must
be at least one. -/
def digitsToNat (cs : List Char) : Option Nat :=
  if cs.isEmpty then none
  else if cs.all Char.isDigit then
    some (cs.foldl (fun n c => n * 10 + (c.toNat - '0'.toNat)) 0)
  else none

/-- Rust `i32::from_str`: an optional sign, then base-10 digits, failing on
empty digit runs, stray characters, and values outside the `i32` range. -/
def parse_i32 (s : String) : Option Int :=
  let p : Int × List Char :=
    match s.data with
    | '-' :: rest => (-1, rest)
    | '+' :: rest => (1, rest)
    | cs => (1, cs)
  match digitsToNat p.2 with
  | none => none
  | some n =>
    let v : Int := p.1 * n
    if -(2 ^ 31) ≤ v ∧ v < 2 ^ 31 then some v else none

/-- The long/short key pair extracted from the captures: the combined `kls`
capture is split at its `/` (the source `unwrap`s there, modelled as the
`Option`), otherwise the `kl` and `ks` captures are taken as they are. -/
def keypairOf (caps : SchemaCaps) : Option (Option String × Option String) :=
  match caps.kls with
  | some kls =>
    (splitOnceAux ['/'] kls).map (fun p => (some (⟨p.1⟩ : String), some (⟨p.2⟩ : String)))
  | none => some (caps.kl.map (⟨·⟩), caps.ks.map (⟨·⟩))

/-- Descriptor construction from the regex captures and the already-extracted
default literal (the tail of `CliArgs::parse_schema` after the regex match).
The source looks up a capture group named `optional`, but `SCHEMA_REGEX`
declares no group of that name, so that lookup yields `None` and the flag is
always `false`; the `\??` at the end of the pattern merely consumes a `?`.
A panic (`unwrap` on the default-literal parse, or the unreachable kind arm)
is modelled as `none`. -/
def mkDescriptor (caps : SchemaCaps) (default_val : Option String) :
    Option (Option String × Option String × Arg) :=
  match keypairOf caps with
  | none => none
  | some (key_l, key_s) =>
    let optional : Bool := false
    if caps.ty = 'b' then
      match default_val with
      | none => some (key_l, key_s, Arg.Bool [] ⟨optional, none⟩)
      | some d => (parse_bool d).map (fun b => (key_l, key_s, Arg.Bool [] ⟨optional, some b⟩))
    else if caps.ty = 'i' then
      match default_val with
      | none => some (key_l, key_s, Arg.Int [] ⟨optional, none⟩)
      | some d => (parse_i32 d).map (fun n => (key_l, key_s, Arg.Int [] ⟨optional, some n⟩))
    else if caps.ty = 's' then
      match default_val with
      | none => some (key_l, key_s, Arg.String [] ⟨optional, none⟩)
      | some d => some (key_l, key_s, Arg.String [] ⟨optional, some d⟩)
    else none

/-- Model of `CliArgs::parse_schema`.  The default literal is everything after
the first `::>` of the original, un-stripped schema string; only then is
whitespace removed and the schema regex matched (`unwrap` on a failed match is
modelled as `none`). -/
def parse_schema (schema : String) : Option (Option String × Option String × Arg) :=
  let default_val : Option String := (split_once schema "::>").map (fun p => p.2)
  let stripped : String := stripWhitespace schema
  match searchSchema stripped.data with
  | none => none
  | some caps => mkDescriptor caps default_val

/-- Insert-or-replace on the association list modelling
`HashMap<String, usize>::insert`. -/
def insertKey (m : List (String × Nat)) (k : String) (v : Nat) : List (String × Nat) :=
  match m with
  | [] => [(k, v)]
  | (k', v') :: rest => if k' = k then (k, v) :: rest else (k', v') :: insertKey rest k v

/-- The parser state (`struct CliArgs`): the name-to-index mapping and the
ordered list of declared arguments. -/
structure CliArgs where
  keys : List (String × Nat)
  args : List Arg
  deriving DecidableEq

/-- Model of `CliArgs::new`. -/
def CliArgs.new : CliArgs := ⟨[], []⟩

/-- Model of `CliArgs::with`: compile the schema, register the short and then
the long name at the next index, and append the descriptor.  A panic inside
`parse_schema` propagates as `none`. -/
def CliArgs.with (c : CliArgs) (schema : String) : Option CliArgs :=
  (parse_schema schema).map (fun r =>
    let ind := c.args.length
    let keys1 :=
      match r.2.1 with
      | some key_s => insertKey c.keys key_s ind
      | none => c.keys
    let keys2 :=
      match r.1 with
      | some key_l => insertKey keys1 key_l ind
      | none => keys1
    ⟨keys2, c.args ++ [r.2.2]⟩)

/-- Model of `CliArgs::is_long_key` (`s.starts_with("--")`). -/
def CliArgs.is_long_key (s : String) : Bool :=
  "--".data.isPrefixOf s.data

/-- Model of `CliArgs::is_short_key` (`s.starts_with("-") && !s.starts_with("--")`). -/
def CliArgs.is_short_key (s : String) : Bool :=
  "-".data.isPrefixOf s.data && !("--".data.isPrefixOf s.data)

/-- Model of `CliArgs::get_arg`: name lookup, then index into the argument
list. -/
def CliArgs.get_arg (c : CliArgs) (key : String) : Option Arg :=
  match c.keys.lookup key with
  | none => none
  | some i => c.args.get? i

/-- The failure modes of the scan loop of `CliArgs::parse_cmd`.
`unknownKey` is the `.expect("key not found")` panic, `valueTypeError` the
`Err(())` from a failed integer parse, `boolWithValue` the
`assert!(val.is_empty())` panic on a boolean long flag with an attached
value, and `awaitingBool` the `panic!("How did I end up here?")` arm. -/
inductive ScanError where
  | unknownKey
  | valueTypeError
  | boolWithValue
  | awaitingBool
  deriving DecidableEq

/-- Outcome of a scan (or of a single scan step): the updated table plus the
`prev_key` buffer, or the failure kind together with the state at the moment
the loop stopped. -/
inductive ScanResult where
  | ok (c : CliArgs) (prev_key : String)
  | err (e : ScanError) (c : CliArgs) (prev_key : String)
  deriving DecidableEq

/-- One iteration of the token loop of `CliArgs::parse_cmd`, acting on the
table and the `prev_key` buffer.  Note that a non-boolean short key is
handled with `prev_key.push_str(arg_str)`, i.e. appended to the buffer, and
that a bare value looks the buffer's full contents up and then clears it. -/
def scanStep (c : CliArgs) (prev_key arg_str : String) : ScanResult :=
  if CliArgs.is_long_key arg_str then
    match (split_once arg_str "=").getD (arg_str, "") with
    | (key_l, val) =>
      match c.keys.lookup key_l with
      | none => .err .unknownKey c prev_key
      | some i =>
        match c.args.get? i with
        | none => .err .unknownKey c prev_key
        | some (Arg.Bool vals st) =>
          if val = "" then .ok ⟨c.keys, c.args.set i (Arg.Bool (vals ++ [true]) st)⟩ prev_key
          else .err .boolWithValue c prev_key
        | some (Arg.Int vals st) =>
          match parse_i32 val with
          | some n => .ok ⟨c.keys, c.args.set i (Arg.Int (vals ++ [n]) st)⟩ prev_key
          | none => .err .valueTypeError c prev_key
        | some (Arg.String vals st) =>
          .ok ⟨c.keys, c.args.set i (Arg.String (vals ++ [val]) st)⟩ prev_key
  else if CliArgs.is_short_key arg_str then
    match c.keys.lookup arg_str with
    | none => .err .unknownKey c prev_key
    | some i =>
      match c.args.get? i with
      | none => .err .unknownKey c prev_key
      | some (Arg.Bool vals st) =>
        .ok ⟨c.keys, c.args.set i (Arg.Bool (vals ++ [true]) st)⟩ prev_key
      | some _ => .ok c (prev_key ++ arg_str)
  else
    match c.keys.lookup prev_key with
    | none => .err .unknownKey c prev_key
    | some i =>
      match c.args.get? i with
      | none => .err .unknownKey c prev_key
      | some (Arg.Int vals st) =>
        match parse_i32 arg_str with
        | some n => .ok ⟨c.keys, c.args.set i (Arg.Int (vals ++ [n]) st)⟩ ""
        | none => .err .valueTypeError c prev_key
      | some (Arg.String vals st) =>
        .ok ⟨c.keys, c.args.set i (Arg.String (vals ++ [arg_str]) st)⟩ ""
      | some (Arg.Bool _ _) => .err .awaitingBool c prev_key

/-- The token loop of `CliArgs::parse_cmd` over an explicit token list,
stopping at the first failure. -/
def scanTokens (c : CliArgs) (prev_key : String) : List String → ScanResult
  | [] => .ok c prev_key
  | t :: ts =>
    match scanStep c prev_key t with
    | .ok c' p' => scanTokens c' p' ts
    | .err e c' p' => .err e c' p'

/-- The post-scan resolution loop of `CliArgs::parse_cmd`
(`for arg in self.args.iter_mut() { arg.apply_settings()?; }`): the overall
result is a failure exactly when some descriptor's `apply_settings` fails. -/
def resolveArgs : List Arg → Option (List Arg)
  | [] => some []
  | a :: rest =>
    match a.apply_settings with
    | none => none
    | some a' => (resolveArgs rest).map (fun rs => a' :: rs)

/-- The computational core of `CliArgs::parse_cmd` applied to an explicit
token list: scan the tokens with an empty `prev_key` buffer, then resolve.
(The surrounding I/O — reading `env::args()` and the `File::open` heuristic
that skips the program path — is outside the model; the claims all speak of
the scanned tokens themselves.) -/
def scan_and_resolve (c : CliArgs) (tokens : List String) : Option CliArgs :=
  match scanTokens c "" tokens with
  | .ok c' _ => (resolveArgs c'.args).map (fun as => ⟨c'.keys, as⟩)
  | .err _ _ _ => none

/-- Model of `CliArgs::parse`: its body begins with
`todo!("Probably not todo")`, an unconditional panic, so the regex-based
scanning code after it is unreachable and the function never returns; the
panic is modelled as `none`. -/
def CliArgs.parse (_c : CliArgs) (_args_line : String) : Option (Except Unit CliArgs) :=
  none

/-- The accessor error type (`enum ArgError`); the spec calls `WrongKey`
`UnknownKey` and `WrongType` `TypeMismatch`. -/
inductive ArgError where
  | WrongKey
  | WrongType
  deriving DecidableEq

/-- Model of `CliArgs::get_bool_multi`. -/
def CliArgs.get_bool_multi (c : CliArgs) (key : String) : Except ArgError (List Bool) :=
  match c.get_arg key with
  | none => .error .WrongKey
  | some (Arg.Bool vals _) => .ok vals
  | some _ => .error .WrongType

/-- Model of `CliArgs::get_int_multi`. -/
def CliArgs.get_int_multi (c : CliArgs) (key : String) : Except ArgError (List Int) :=
  match c.get_arg key with
  | none => .error .WrongKey
  | some (Arg.Int vals _) => .ok vals
  | some _ => .error .WrongType

/-- Model of `CliArgs::get_string_multi`. -/
def CliArgs.get_string_multi (c : CliArgs) (key : String) : Except ArgError (List String) :=
  match c.get_arg key with
  | none => .error .WrongKey
  | some (Arg.String vals _) => .ok vals
  | some _ => .error .WrongType

/-- Model of `CliArgs::get_bool` (`vs.get(0).cloned()`). -/
def CliArgs.get_bool (c : CliArgs) (key : String) : Except ArgError (Option Bool) :=
  (c.get_bool_multi key).map List.head?

/-- Model of `CliArgs::get_int`. -/
def CliArgs.get_int (c : CliArgs) (key : String) : Except ArgError (Option Int) :=
  (c.get_int_multi key).map List.head?

/-- Model of `CliArgs::get_string`. -/
def CliArgs.get_string (c : CliArgs) (key : String) : Except ArgError (Option String) :=
  (c.get_string_multi key).map List.head?

/-- The declared kind of a descriptor. -/
inductive ArgKind where
  | bool
  | int
  | string
  deriving DecidableEq

/-- Kind projection of a descriptor. -/
def Arg.kind : Arg → ArgKind
  | .Bool _ _ => .bool
  | .Int _ _ => .int
  | .String _ _ => .string

/-- Whether a descriptor is of Boolean kind (the `if let Arg::Bool` test of
the scan loop). -/
def isBoolArg : Arg → Bool
  | .Bool _ _ => true
  | _ => false

/-- The `optional` flag of a descriptor's settings. -/
def optionalFlag : Arg → Bool
  | .Bool _ st => st.optional
  | .Int _ st => st.optional
  | .String _ st => st.optional

/-- Whether a descriptor's settings carry a default value. -/
def hasDefault : Arg → Bool
  | .Bool _ st => st.default_val.isSome
  | .Int _ st => st.default_val.isSome
  | .String _ st => st.default_val.isSome

/-- Whether a descriptor has no observed value. -/
def valsEmpty : Arg → Bool
  | .Bool vals _ => vals.isEmpty
  | .Int vals _ => vals.isEmpty
  | .String vals _ => vals.isEmpty

/-- A descriptor that post-parse resolution must reject: non-optional, no
default, and no observed value. -/
def requiredMissing (a : Arg) : Bool :=
  valsEmpty a && !optionalFlag a && !hasDefault a

/-- Descriptor `b` extends descriptor `a`: same kind, same settings, and the
observed values of `a` are an initial segment of those of `b`. -/
def valsGrow : Arg → Arg → Prop
  | .Bool v1 s1, .Bool v2 s2 => v1 <+: v2 ∧ s1 = s2
  | .Int v1 s1, .Int v2 s2 => v1 <+: v2 ∧ s1 = s2
  | .String v1 s1, .String v2 s2 => v1 <+: v2 ∧ s1 = s2
  | _, _ => False

/-- The key part of a long token: everything before the first `=`, or the
whole token when it has no `=` (as in the long-key arm of the scan loop). -/
def longKeyName (tok : String) : String :=
  ((split_once tok "=").getD (tok, "")).1

/-! Helper lemmas. -/

theorem getq_set_self {α : Type} (l : List α) (i : Nat) (x : α) (h : i < l.length) :
    (l.set i x).get? i = some x := by
  induction l generalizing i with
  | nil => simp at h
  | cons a as ih =>
    cases i with
    | zero => rfl
    | succ n =>
      have hn : n < as.length := by simpa using h
      simpa [List.set] using ih n hn

theorem getq_set_other {α : Type} (l : List α) (i j : Nat) (x : α) (h : i ≠ j) :
    (l.set j x).get? i = l.get? i := by
  induction l generalizing i j with
  | nil => rfl
  | cons a as ih =>
    cases j with
    | zero =>
      cases i with
      | zero => exact absurd rfl h
      | succ n => rfl
    | succ m =>
      cases i with
      | zero => rfl
      | succ n =>
        have hnm : n ≠ m := fun hh => h (by rw [hh])
        simpa [List.set] using ih n m hnm

theorem lookup_insertKey (m : List (String × Nat)) (k k' : String) (v : Nat) :
    (insertKey m k v).lookup k' = if k' = k then some v else m.lookup k' := by
  induction m with
  | nil =>
    by_cases h : k' = k <;> simp [insertKey, List.lookup, h, beq_false_of_ne]
  | cons p rest ih =>
    obtain ⟨k0, v0⟩ := p
    simp only [insertKey]
    by_cases h0 : k0 = k
    · rw [if_pos h0]
      subst h0
      by_cases h : k' = k0 <;> simp [List.lookup, h, beq_false_of_ne]
    · rw [if_neg h0]
      by_cases h : k' = k0
      · have hk : ¬ k' = k := by rw [h]; exact h0
        simp [List.lookup, h, hk, h0, beq_false_of_ne]
      · simp [List.lookup, h, beq_false_of_ne, ih]

theorem stripWhitespace_idem (s : String) :
    stripWhitespace (stripWhitespace s) = stripWhitespace s := by
  simp [stripWhitespace, List.filter_filter]

theorem apply_eq_none_iff {T : Type} (s : ArgSettings T) (vals : List T) :
    s.apply vals = none ↔
      (vals.isEmpty = true ∧ s.optional = false ∧ s.default_val = none) := by
  obtain ⟨opt, dflt⟩ := s
  cases vals with
  | nil => cases opt <;> cases dflt <;> simp [ArgSettings.apply]
  | cons x xs => simp [ArgSettings.apply]

theorem apply_of_default {T : Type} (s : ArgSettings T) (d : T)
    (hd : s.default_val = some d) : s.apply [] = some [d] := by
  obtain ⟨opt, dflt⟩ := s
  cases hd
  cases opt <;> simp [ArgSettings.apply]

theorem apply_settings_of_vals_nonempty (a : Arg) (h : valsEmpty a = false) :
    a.apply_settings = some a := by
  cases a <;>
    (rename_i vals st
     simp only [valsEmpty] at h
     simp [Arg.apply_settings, ArgSettings.apply, h])

theorem apply_settings_eq_none_iff (a : Arg) :
    a.apply_settings = none ↔ requiredMissing a = true := by
  cases a <;>
    (rename_i vals st
     obtain ⟨opt, dflt⟩ := st
     cases vals <;> cases opt <;> cases dflt <;>
       simp [Arg.apply_settings, ArgSettings.apply, requiredMissing, valsEmpty,
         optionalFlag, hasDefault])

theorem resolveArgs_eq_none_iff (args : List Arg) :
    resolveArgs args = none ↔ ∃ a ∈ args, requiredMissing a = true := by
  induction args with
  | nil => simp [resolveArgs]
  | cons a rest ih =>
    simp only [resolveArgs]
    cases ha : a.apply_settings with
    | none =>
      simp only []
      constructor
      · intro _
        exact ⟨a, by simp, (apply_settings_eq_none_iff a).mp ha⟩
      · intro _
        trivial
    | some a' =>
      have hpa : ¬ requiredMissing a = true := by
        intro hc
        rw [← apply_settings_eq_none_iff] at hc
        rw [hc] at ha
        cases ha
      simp [Option.map_eq_none', ih, hpa]

theorem resolveArgs_get (args res : List Arg) (h : resolveArgs args = some res) (i : Nat) :
    res.get? i = (args.get? i).bind Arg.apply_settings := by
  induction args generalizing res i with
  | nil =>
    simp only [resolveArgs] at h
    cases h
    simp
  | cons a rest ih =>
    simp only [resolveArgs] at h
    cases ha : a.apply_settings with
    | none => rw [ha] at h; cases h
    | some a' =>
      rw [ha] at h
      cases hr : resolveArgs rest with
      | none => rw [hr] at h; cases h
      | some rs =>
        rw [hr] at h
        simp only [Option.map_some'] at h
        cases h
        cases i with
        | zero => simp [ha]
        | succ n => simpa using ih rs hr n

theorem valsGrow_refl (a : Arg) : valsGrow a a := by
  cases a <;> exact ⟨List.prefix_refl _, rfl⟩

theorem valsGrow_trans {a b c : Arg} (h1 : valsGrow a b) (h2 : valsGrow b c) :
    valsGrow a c := by
  cases a <;> cases b <;> cases c <;>
    simp only [valsGrow] at h1 h2 ⊢ <;>
    first
    | exact h1.elim
    | exact h2.elim
    | exact ⟨h1.1.trans h2.1, h1.2.trans h2.2⟩

theorem grow_set (args : List Arg) (j : Nat) (old new : Arg)
    (hj : args.get? j = some old) (hg : valsGrow old new) :
    ∀ i a, args.get? i = some a → ∃ b, (args.set j new).get? i = some b ∧ valsGrow a b := by
  intro i a ha
  by_cases hij : i = j
  · subst hij
    have hlt : i < args.length := by
      by_contra hge
      rw [List.get?_eq_none.mpr (Nat.le_of_not_lt hge)] at ha
      cases ha
    refine ⟨new, getq_set_self _ _ _ hlt, ?_⟩
    rw [hj] at ha
    cases ha
    exact hg
  · exact ⟨a, by rw [getq_set_other _ _ _ _ hij]; exact ha, valsGrow_refl a⟩

theorem scanStep_grow (c : CliArgs) (prev t : String) (c' : CliArgs) (p' : String)
    (h : scanStep c prev t = .ok c' p') :
    c'.keys = c.keys ∧
      ∀ i a, c.args.get? i = some a → ∃ b, c'.args.get? i = some b ∧ valsGrow a b := by
  unfold scanStep at h
  split at h
  · -- long-key branch
    split at h
    split at h
    · cases h
    · split at h
      · cases h
      · split at h
        · cases h
          refine ⟨rfl, ?_⟩
          apply grow_set
          · assumption
          · exact ⟨List.prefix_append _ _, rfl⟩
        · cases h
      · split at h
        · cases h
          refine ⟨rfl, ?_⟩
          apply grow_set
          · assumption
          · exact ⟨List.prefix_append _ _, rfl⟩
        · cases h
      · cases h
        refine ⟨rfl, ?_⟩
        apply grow_set
        · assumption
        · exact ⟨List.prefix_append _ _, rfl⟩
  · split at h
    · -- short-key branch
      split at h
      · cases h
      · split at h
        · cases h
        · cases h
          refine ⟨rfl, ?_⟩
          apply grow_set
          · assumption
          · exact ⟨List.prefix_append _ _, rfl⟩
        · cases h
          exact ⟨rfl, fun i a ha => ⟨a, ha, valsGrow_refl a⟩⟩
    · -- bare-value branch
      split at h
      · cases h
      · split at h
        · cases h
        · split at h
          · cases h
            refine ⟨rfl, ?_⟩
            apply grow_set
            · assumption
            · exact ⟨List.prefix_append _ _, rfl⟩
          · cases h
        · cases h
          refine ⟨rfl, ?_⟩
          apply grow_set
          · assumption
          · exact ⟨List.prefix_append _ _, rfl⟩
        · cases h

theorem scanTokens_grow (ts : List String) (c : CliArgs) (prev : String)
    (c' : CliArgs) (p' : String) (h : scanTokens c prev ts = .ok c' p') :
    c'.keys = c.keys ∧
      ∀ i a, c.args.get? i = some a → ∃ b, c'.args.get? i = some b ∧ valsGrow a b := by
  induction ts generalizing c prev with
  | nil =>
    cases h
    exact ⟨rfl, fun i a ha => ⟨a, ha, valsGrow_refl a⟩⟩
  | cons t ts ih =>
    simp only [scanTokens] at h
    cases hstep : scanStep c prev t with
    | ok c1 p1 =>
      rw [hstep] at h
      have h1 := scanStep_grow c prev t c1 p1 hstep
      have h2 := ih c1 p1 h
      refine ⟨h2.1.trans h1.1, fun i a ha => ?_⟩
      obtain ⟨b, hb, hg⟩ := h1.2 i a ha
      obtain ⟨b2, hb2, hg2⟩ := h2.2 i b hb
      exact ⟨b2, hb2, valsGrow_trans hg hg2⟩
    | err e c1 p1 =>
      rw [hstep] at h
      cases h

theorem mkDescriptor_components (caps : SchemaCaps) (d : Option String)
    (r : Option String × Option String × Arg) (h : mkDescriptor caps d = some r) :
    keypairOf caps = some (r.1, r.2.1) ∧ optionalFlag r.2.2 = false ∧
      ((caps.ty = 'b' ∧ Arg.kind r.2.2 = ArgKind.bool) ∨
       (caps.ty = 'i' ∧ Arg.kind r.2.2 = ArgKind.int) ∨
       (caps.ty = 's' ∧ Arg.kind r.2.2 = ArgKind.string)) := by
  rcases hkp : keypairOf caps with _ | ⟨key_l, key_s⟩
  · simp only [mkDescriptor, hkp] at h
    exact Option.noConfusion h
  · simp only [mkDescriptor, hkp] at h
    by_cases hb : caps.ty = 'b'
    · simp only [if_pos hb] at h
      cases d with
      | none =>
        cases h
        exact ⟨rfl, rfl, Or.inl ⟨hb, rfl⟩⟩
      | some d' =>
        obtain ⟨b, _, hr⟩ := Option.map_eq_some'.mp h
        subst hr
        exact ⟨rfl, rfl, Or.inl ⟨hb, rfl⟩⟩
    · simp only [if_neg hb] at h
      by_cases hi : caps.ty = 'i'
      · simp only [if_pos hi] at h
        cases d with
        | none =>
          cases h
          exact ⟨rfl, rfl, Or.inr (Or.inl ⟨hi, rfl⟩)⟩
        | some d' =>
          obtain ⟨n, _, hr⟩ := Option.map_eq_some'.mp h
          subst hr
          exact ⟨rfl, rfl, Or.inr (Or.inl ⟨hi, rfl⟩)⟩
      · simp only [if_neg hi] at h
        by_cases hs : caps.ty = 's'
        · simp only [if_pos hs] at h
          cases d with
          | none =>
            cases h
            exact ⟨rfl, rfl, Or.inr (Or.inr ⟨hs, rfl⟩)⟩
          | some d' =>
            cases h
            exact ⟨rfl, rfl, Or.inr (Or.inr ⟨hs, rfl⟩)⟩
        · simp only [if_neg hs] at h
          cases h

/-! Theorems for the spec claims. -/

/-- C1: the claim says a descriptor declared with a trailing `?` and no
default resolves to an empty value sequence when its key never occurs.  The
code disagrees: `parse_schema` reads a capture group named `optional` that
`SCHEMA_REGEX` never defines, so the compiled descriptor of `--adult=b?` is
non-optional (`optional = false`) and post-parse resolution of the empty
token list fails instead of succeeding. -/
theorem C1_optional_marker_lost :
    CliArgs.with CliArgs.new "--adult=b?" =
      some ⟨[("--adult", 0)], [Arg.Bool [] ⟨false, none⟩]⟩ ∧
    scan_and_resolve ⟨[("--adult", 0)], [Arg.Bool [] ⟨false, none⟩]⟩ [] = none :=
  ⟨by decide, by decide⟩

/-- C2: a descriptor declared with a default that is never observed resolves
to exactly one value, the default, whatever its optional flag: shown for
`ArgSettings::apply` in general, and end to end for `--count=i?::>5` scanned
against no tokens, where the accessor returns the default `5`. -/
theorem C2_default_fills_required (T : Type) (s : ArgSettings T) (d : T)
    (hd : s.default_val = some d) :
    s.apply [] = some [d] ∧
    ((CliArgs.with CliArgs.new "--count=i?::>5").bind
        (fun c => scan_and_resolve c [])).map (fun c => c.get_int "--count") =
      some (Except.ok (some 5)) :=
  ⟨apply_of_default s d hd, rfl⟩

/-- C2 witness: the theorem applied to a concrete integer setting with
default value 3. -/
theorem C2_default_fills_required_witness :
    (ArgSettings.mk false (some (3 : Int))).apply [] = some [3] ∧
    ((CliArgs.with CliArgs.new "--count=i?::>5").bind
        (fun c => scan_and_resolve c [])).map (fun c => c.get_int "--count") =
      some (Except.ok (some 5)) :=
  C2_default_fills_required Int ⟨false, some 3⟩ 3 rfl

/-- C3: post-parse resolution fails exactly when some descriptor is
non-optional, default-less, and has no observed value; a descriptor with at
least one observed value passes through resolution unchanged. -/
theorem C3_resolution_missing_required (args : List Arg) :
    (resolveArgs args = none ↔ ∃ a ∈ args, requiredMissing a = true) ∧
    (∀ res, resolveArgs args = some res →
      ∀ i a, args.get? i = some a → valsEmpty a = false → res.get? i = some a) := by
  refine ⟨resolveArgs_eq_none_iff args, ?_⟩
  intro res hres i a ha hne
  rw [resolveArgs_get args res hres i, ha]
  simp [apply_settings_of_vals_nonempty a hne]

/-- C3 witness: a required default-less integer descriptor with no value
makes resolution fail, and an observed string descriptor is resolved
unchanged. -/
theorem C3_resolution_missing_required_witness :
    resolveArgs [Arg.Int [] ⟨false, none⟩] = none ∧
    ([Arg.String ["x"] ⟨false, none⟩] : List Arg).get? 0 =
      some (Arg.String ["x"] ⟨false, none⟩) :=
  ⟨(C3_resolution_missing_required [Arg.Int [] ⟨false, none⟩]).1.mpr
      ⟨Arg.Int [] ⟨false, none⟩, by simp, rfl⟩,
    (C3_resolution_missing_required [Arg.String ["x"] ⟨false, none⟩]).2
      [Arg.String ["x"] ⟨false, none⟩] rfl 0 (Arg.String ["x"] ⟨false, none⟩) rfl rfl⟩

/-- C4: `CliArgs::parse` begins with `todo!("Probably not todo")`, an
unconditional panic, so for every parser state and every argument line it
diverges without examining its input and never returns `Ok` or `Err`. -/
theorem C4_parse_always_panics (c : CliArgs) (line : String) :
    CliArgs.parse c line = none :=
  rfl

/-- C5 counterexample: with string descriptors registered under `-a` and
`-b`, scanning `-a -b v` does not bind `v` to the `-b` descriptor as the
claim states; the second short key is appended to the awaiting buffer
(`prev_key.push_str`), so the bare value is looked up under `-a-b` and the
scan stops with the unknown-key failure, both descriptors left empty. -/
theorem C5_second_short_key_counterexample :
    (CliArgs.with CliArgs.new "-a=s").bind (fun c => CliArgs.with c "-b=s") =
      some ⟨[("-a", 0), ("-b", 1)],
        [Arg.String [] ⟨false, none⟩, Arg.String [] ⟨false, none⟩]⟩ ∧
    scanTokens ⟨[("-a", 0), ("-b", 1)],
        [Arg.String [] ⟨false, none⟩, Arg.String [] ⟨false, none⟩]⟩ "" ["-a", "-b", "v"] =
      .err .unknownKey ⟨[("-a", 0), ("-b", 1)],
        [Arg.String [] ⟨false, none⟩, Arg.String [] ⟨false, none⟩]⟩ "-a-b" :=
  ⟨by decide, by decide⟩

/-- C5 (amended): a non-boolean short key is appended to the awaiting-key
buffer, so it becomes the single awaiting key exactly when the buffer was
empty; a following bare value token is looked up under the buffer's full
contents — when that lookup finds a string descriptor the value is appended
to it and the buffer cleared, and when the (possibly concatenated) buffer
names no descriptor the scan fails with the unknown-key error. -/
theorem C5_short_key_appends_to_buffer (c : CliArgs) (prev tok v : String)
    (i : Nat) (a : Arg)
    (hlong : CliArgs.is_long_key tok = false)
    (hshort : CliArgs.is_short_key tok = true)
    (hlook : c.keys.lookup tok = some i)
    (harg : c.args.get? i = some a)
    (hnb : isBoolArg a = false) :
    scanStep c prev tok = .ok c (prev ++ tok) ∧
    (CliArgs.is_long_key v = false → CliArgs.is_short_key v = false →
      ((∀ j vals st, c.keys.lookup (prev ++ tok) = some j →
          c.args.get? j = some (Arg.String vals st) →
          scanTokens c prev [tok, v] =
            .ok ⟨c.keys, c.args.set j (Arg.String (vals ++ [v]) st)⟩ "") ∧
       (c.keys.lookup (prev ++ tok) = none →
          scanTokens c prev [tok, v] = .err .unknownKey c (prev ++ tok)))) := by
  have hstep : scanStep c prev tok = .ok c (prev ++ tok) := by
    rw [List.get?_eq_getElem?] at harg
    cases a with
    | Bool vals st => simp [isBoolArg] at hnb
    | Int vals st => simp [scanStep, hlong, hshort, hlook, harg]
    | String vals st => simp [scanStep, hlong, hshort, hlook, harg]
  refine ⟨hstep, fun hlv hsv => ⟨?_, ?_⟩⟩
  · intro j vals st hj harg2
    rw [List.get?_eq_getElem?] at harg2
    have hv : scanStep c (prev ++ tok) v =
        .ok ⟨c.keys, c.args.set j (Arg.String (vals ++ [v]) st)⟩ "" := by
      simp [scanStep, hlv, hsv, hj, harg2]
    simp [scanTokens, hstep, hv]
  · intro hnone
    have hv : scanStep c (prev ++ tok) v = .err .unknownKey c (prev ++ tok) := by
      simp [scanStep, hlv, hsv, hnone]
    simp [scanTokens, hstep, hv]

/-- C5 witness: the amended behaviour on the registered string key `-n` with
an empty awaiting buffer and the value `Alice`. -/
theorem C5_short_key_appends_to_buffer_witness :
    scanTokens ⟨[("-n", 0)], [Arg.String [] ⟨false, none⟩]⟩ "" ["-n", "Alice"] =
      .ok ⟨[("-n", 0)], [Arg.String ["Alice"] ⟨false, none⟩]⟩ "" := by
  have h := C5_short_key_appends_to_buffer
    ⟨[("-n", 0)], [Arg.String [] ⟨false, none⟩]⟩ "" "-n" "Alice" 0
    (Arg.String [] ⟨false, none⟩) (by decide) (by decide) (by decide) rfl rfl
  have h2 := (h.2 (by decide) (by decide)).1 0 [] ⟨false, none⟩ (by decide) rfl
  simpa using h2

/-- C6 counterexample: the default literal is cut out of the original schema
before whitespace stripping, so whitespace around it survives: with a space
after `::>` the string default differs (`" Bob"` versus `"Bob"`), and an
integer default even fails to parse while the stripped schema compiles. -/
theorem C6_whitespace_counterexample :
    parse_schema "--name=s ::> Bob" =
      some (some "--name", none, Arg.String [] ⟨false, some " Bob"⟩) ∧
    parse_schema "--name=s::>Bob" =
      some (some "--name", none, Arg.String [] ⟨false, some "Bob"⟩) ∧
    parse_schema "--age=i::> 18" = none ∧
    parse_schema "--age=i::>18" =
      some (some "--age", none, Arg.Int [] ⟨false, some 18⟩) :=
  ⟨by decide, by decide, by decide, by decide⟩

/-- C6 (amended): whitespace-insensitivity holds for the name/kind/optional
part of a schema: whenever a schema and its whitespace-stripped form both
compile, they agree on the long name, short name and kind, and the optional
flag is `false` on both sides; only the default literal — the verbatim text
after the first `::>` of the original string — is whitespace-sensitive. -/
theorem C6_names_whitespace_insensitive (s : String)
    (r r' : Option String × Option String × Arg)
    (h : parse_schema s = some r)
    (h' : parse_schema (stripWhitespace s) = some r') :
    r.1 = r'.1 ∧ r.2.1 = r'.2.1 ∧ Arg.kind r.2.2 = Arg.kind r'.2.2 ∧
      optionalFlag r.2.2 = false ∧ optionalFlag r'.2.2 = false := by
  simp only [parse_schema] at h h'
  rw [stripWhitespace_idem] at h'
  cases hs : searchSchema (stripWhitespace s).data with
  | none =>
    rw [hs] at h
    exact Option.noConfusion h
  | some caps =>
    rw [hs] at h h'
    have c1 := mkDescriptor_components caps _ r h
    have c2 := mkDescriptor_components caps _ r' h'
    have hk : (r.1, r.2.1) = (r'.1, r'.2.1) :=
      Option.some.inj (c1.1.symm.trans c2.1)
    injection hk with e1 e2
    refine ⟨e1, e2, ?_, c1.2.1, c2.2.1⟩
    rcases c1.2.2 with ⟨h1, hk1⟩ | ⟨h1, hk1⟩ | ⟨h1, hk1⟩ <;>
      rcases c2.2.2 with ⟨h2, hk2⟩ | ⟨h2, hk2⟩ | ⟨h2, hk2⟩ <;>
      first
      | exact hk1.trans hk2.symm
      | exact absurd (h1.symm.trans h2) (by decide)

/-- C6 witness: the amended agreement applied to the spaced schema
`--name / -n = s` and its stripped form. -/
theorem C6_names_whitespace_insensitive_witness :
    (some "--name" : Option String) = some "--name" ∧
    (some "-n" : Option String) = some "-n" ∧
    Arg.kind (Arg.String [] ⟨false, none⟩) = Arg.kind (Arg.String [] ⟨false, none⟩) ∧
    optionalFlag (Arg.String [] ⟨false, none⟩) = false ∧
    optionalFlag (Arg.String [] ⟨false, none⟩) = false :=
  C6_names_whitespace_insensitive "--name / -n = s"
    (some "--name", some "-n", Arg.String [] ⟨false, none⟩)
    (some "--name", some "-n", Arg.String [] ⟨false, none⟩)
    (by decide) (by decide)

theorem getq_append_length {α : Type} (l : List α) (x : α) :
    (l ++ [x]).get? l.length = some x := by
  induction l with
  | nil => rfl
  | cons a as ih => exact ih

theorem getq_isSome_of_lt {α : Type} (l : List α) (i : Nat) (h : i < l.length) :
    ∃ a, l.get? i = some a := by
  induction l generalizing i with
  | nil => simp at h
  | cons a as ih =>
    cases i with
    | zero => exact ⟨a, rfl⟩
    | succ n => simpa using ih n (by simpa using h)

/-- C7: a successful scan only ever appends to each descriptor's observed
values (`valsGrow`: the old value list is an initial segment of the new one),
so values accumulate in strict left-to-right input order; and the spec's
example holds end to end: scanning `-n Alice -n Bob` against the string
descriptor declared with long `--name`, short `-n`, kind `s` accumulates `["Alice", "Bob"]` in
encounter order, which the multi-value accessor returns unchanged. -/
theorem C7_values_accumulate_in_order (c c' : CliArgs) (prev p' : String)
    (ts : List String) (h : scanTokens c prev ts = .ok c' p') :
    (∀ i a, c.args.get? i = some a → ∃ b, c'.args.get? i = some b ∧ valsGrow a b) ∧
    (CliArgs.with CliArgs.new "--name/-n=s" =
        some ⟨[("-n", 0), ("--name", 0)], [Arg.String [] ⟨false, none⟩]⟩ ∧
      (scan_and_resolve ⟨[("-n", 0), ("--name", 0)], [Arg.String [] ⟨false, none⟩]⟩
          ["-n", "Alice", "-n", "Bob"]).map (fun r => r.get_string_multi "-n") =
        some (Except.ok ["Alice", "Bob"])) :=
  ⟨(scanTokens_grow ts c prev c' p' h).2, by decide, rfl⟩

/-- C7 witness: the growth property applied to the scan of
`-n Alice -n Bob` from the freshly declared table. -/
theorem C7_values_accumulate_in_order_witness :
    ∃ b, ([Arg.String ["Alice", "Bob"] ⟨false, none⟩] : List Arg).get? 0 = some b ∧
      valsGrow (Arg.String [] ⟨false, none⟩) b :=
  (C7_values_accumulate_in_order
      ⟨[("-n", 0), ("--name", 0)], [Arg.String [] ⟨false, none⟩]⟩
      ⟨[("-n", 0), ("--name", 0)], [Arg.String ["Alice", "Bob"] ⟨false, none⟩]⟩
      "" "" ["-n", "Alice", "-n", "Bob"] (by decide)).1
    0 (Arg.String [] ⟨false, none⟩) rfl

/-- C8: declaring a combined long-slash-short schema registers exactly one
descriptor, with both names mapped to the same (next) table index; and
concretely, after declaring the combined boolean schema for `--verbose` and
`-v` and scanning the single token `-v`, the long and the short lookup
observe the same single presence value. -/
theorem C8_combined_names_share_descriptor (c c' : CliArgs) (schema kl ks : String)
    (a : Arg) (hps : parse_schema schema = some (some kl, some ks, a))
    (hw : CliArgs.with c schema = some c') :
    c'.keys.lookup kl = some c.args.length ∧
    c'.keys.lookup ks = some c.args.length ∧
    c'.args.get? c.args.length = some a ∧
    (scan_and_resolve ⟨[("-v", 0), ("--verbose", 0)], [Arg.Bool [] ⟨false, none⟩]⟩
        ["-v"]).map (fun r => (r.get_bool "--verbose", r.get_bool "-v")) =
      some (Except.ok (some true), Except.ok (some true)) := by
  simp only [CliArgs.with, hps, Option.map_some'] at hw
  cases hw
  refine ⟨?_, ?_, ?_, rfl⟩
  · simp [lookup_insertKey]
  · by_cases hkk : ks = kl <;> simp [lookup_insertKey, hkk]
  · exact getq_append_length c.args a

/-- C8 witness: the combined boolean declaration of `--verbose` and `-v`
from the empty table maps both names to index 0 and stores the boolean
descriptor there. -/
theorem C8_combined_names_share_descriptor_witness :
    (⟨[("-v", 0), ("--verbose", 0)], [Arg.Bool [] ⟨false, none⟩]⟩ : CliArgs).keys.lookup
        "--verbose" = some 0 ∧
    (⟨[("-v", 0), ("--verbose", 0)], [Arg.Bool [] ⟨false, none⟩]⟩ : CliArgs).keys.lookup
        "-v" = some 0 ∧
    (⟨[("-v", 0), ("--verbose", 0)], [Arg.Bool [] ⟨false, none⟩]⟩ : CliArgs).args.get? 0 =
      some (Arg.Bool [] ⟨false, none⟩) ∧
    (scan_and_resolve ⟨[("-v", 0), ("--verbose", 0)], [Arg.Bool [] ⟨false, none⟩]⟩
        ["-v"]).map (fun r => (r.get_bool "--verbose", r.get_bool "-v")) =
      some (Except.ok (some true), Except.ok (some true)) :=
  C8_combined_names_share_descriptor CliArgs.new
    ⟨[("-v", 0), ("--verbose", 0)], [Arg.Bool [] ⟨false, none⟩]⟩
    "--verbose/-v=b?" "--verbose" "-v" (Arg.Bool [] ⟨false, none⟩)
    (by decide) (by decide)

/-- C9: a key token (long or short) whose name has no registered descriptor
stops the scan immediately with the unknown-key failure (the
`.expect("key not found")` panic in the source): the state returned is
exactly the state at the offending token, whatever tokens follow. -/
theorem C9_unknown_key_halts (c : CliArgs) (prev tok : String) (rest : List String)
    (hk : (CliArgs.is_long_key tok = true ∧ c.keys.lookup (longKeyName tok) = none) ∨
          (CliArgs.is_long_key tok = false ∧ CliArgs.is_short_key tok = true ∧
            c.keys.lookup tok = none)) :
    scanTokens c prev (tok :: rest) = .err .unknownKey c prev := by
  have hstep : scanStep c prev tok = .err .unknownKey c prev := by
    rcases hk with ⟨hl, hn⟩ | ⟨hl, hs, hn⟩
    · rcases hp : (split_once tok "=").getD (tok, "") with ⟨kl2, v2⟩
      have hn2 : c.keys.lookup kl2 = none := by
        unfold longKeyName at hn
        rw [hp] at hn
        exact hn
      simp [scanStep, hl, hp, hn2]
    · simp [scanStep, hl, hs, hn]
  simp [scanTokens, hstep]

/-- C9 witness: scanning the unregistered short key `-x` followed by a valid
token halts at `-x` with the table untouched. -/
theorem C9_unknown_key_halts_witness :
    scanTokens ⟨[("-n", 0)], [Arg.String [] ⟨false, none⟩]⟩ "" ["-x", "--name=ok"] =
      .err .unknownKey ⟨[("-n", 0)], [Arg.String [] ⟨false, none⟩]⟩ "" :=
  C9_unknown_key_halts ⟨[("-n", 0)], [Arg.String [] ⟨false, none⟩]⟩ "" "-x"
    ["--name=ok"] (Or.inr ⟨by decide, by decide, by decide⟩)

/-- C10: on a table whose registered indices are all in range, each
multi-value accessor fails with `WrongKey` (the spec's `UnknownKey`) exactly
on an unregistered name and with `WrongType` (the spec's `TypeMismatch`)
exactly when the declared kind differs from the requested one; each
single-value accessor returns the head of the accumulated list (`none` when
it is empty), never failing on a registered, correctly-typed key. -/
theorem C10_accessor_contract (c : CliArgs) (key : String)
    (hwf : ∀ k i, c.keys.lookup k = some i → i < c.args.length) :
    ((c.get_bool_multi key = .error .WrongKey ↔ c.keys.lookup key = none) ∧
     (c.get_bool_multi key = .error .WrongType ↔
        ∃ a, c.get_arg key = some a ∧ Arg.kind a ≠ ArgKind.bool) ∧
     (∀ vals, c.get_bool_multi key = .ok vals → c.get_bool key = .ok vals.head?)) ∧
    ((c.get_int_multi key = .error .WrongKey ↔ c.keys.lookup key = none) ∧
     (c.get_int_multi key = .error .WrongType ↔
        ∃ a, c.get_arg key = some a ∧ Arg.kind a ≠ ArgKind.int) ∧
     (∀ vals, c.get_int_multi key = .ok vals → c.get_int key = .ok vals.head?)) ∧
    ((c.get_string_multi key = .error .WrongKey ↔ c.keys.lookup key = none) ∧
     (c.get_string_multi key = .error .WrongType ↔
        ∃ a, c.get_arg key = some a ∧ Arg.kind a ≠ ArgKind.string) ∧
     (∀ vals, c.get_string_multi key = .ok vals → c.get_string key = .ok vals.head?)) := by
  cases hk : c.keys.lookup key with
  | none =>
    have hga : c.get_arg key = none := by simp [CliArgs.get_arg, hk]
    refine ⟨⟨?_, ?_, ?_⟩, ⟨?_, ?_, ?_⟩, ⟨?_, ?_, ?_⟩⟩ <;>
      simp [CliArgs.get_bool_multi, CliArgs.get_int_multi, CliArgs.get_string_multi,
        CliArgs.get_bool, CliArgs.get_int, CliArgs.get_string, hga, hk]
  | some i =>
    obtain ⟨a, ha⟩ := getq_isSome_of_lt c.args i (hwf key i hk)
    have hga : c.get_arg key = some a := by
      unfold CliArgs.get_arg
      rw [hk]
      exact ha
    rcases a with ⟨vals, st⟩ | ⟨vals, st⟩ | ⟨vals, st⟩ <;>
      refine ⟨⟨?_, ?_, ?_⟩, ⟨?_, ?_, ?_⟩, ⟨?_, ?_, ?_⟩⟩ <;>
        simp [CliArgs.get_bool_multi, CliArgs.get_int_multi, CliArgs.get_string_multi,
          CliArgs.get_bool, CliArgs.get_int, CliArgs.get_string, Except.map, hga, hk,
          Arg.kind]

/-- C10 witness: on the table holding one boolean descriptor under `-v` and
`--verbose`, the unregistered key `-x` yields `WrongKey`, an integer access
of `-v` yields `WrongType`, and the single-value boolean access of `-v`
returns the head of its value list. -/
theorem C10_accessor_contract_witness :
    (⟨[("-v", 0), ("--verbose", 0)], [Arg.Bool [true] ⟨false, none⟩]⟩ :
        CliArgs).get_bool_multi "-x" = .error .WrongKey ∧
    (⟨[("-v", 0), ("--verbose", 0)], [Arg.Bool [true] ⟨false, none⟩]⟩ :
        CliArgs).get_int_multi "-v" = .error .WrongType ∧
    (⟨[("-v", 0), ("--verbose", 0)], [Arg.Bool [true] ⟨false, none⟩]⟩ :
        CliArgs).get_bool "-v" = .ok (some true) := by
  have hwf : ∀ k i,
      (⟨[("-v", 0), ("--verbose", 0)], [Arg.Bool [true] ⟨false, none⟩]⟩ :
        CliArgs).keys.lookup k = some i →
      i < (⟨[("-v", 0), ("--verbose", 0)], [Arg.Bool [true] ⟨false, none⟩]⟩ :
        CliArgs).args.length := by
    intro k i h
    simp only [List.lookup] at h
    split at h
    · cases h
      decide
    · split at h
      · cases h
        decide
      · cases h
  have h1 := C10_accessor_contract
    ⟨[("-v", 0), ("--verbose", 0)], [Arg.Bool [true] ⟨false, none⟩]⟩ "-x" hwf
  have h2 := C10_accessor_contract
    ⟨[("-v", 0), ("--verbose", 0)], [Arg.Bool [true] ⟨false, none⟩]⟩ "-v" hwf
  refine ⟨h1.1.1.mpr rfl, ?_, h2.1.2.2 [true] rfl⟩
  exact h2.2.1.2.1.mpr ⟨Arg.Bool [true] ⟨false, none⟩, rfl, by decide⟩

end CliRs
